import Mathlib

/-!
Verification of the `tgui::EditBox` widget
(`src/libs/LIBTGUI/linux/include/TGUI/Widgets/EditBox.hpp`).

The repository ships only the class header (declarations, member fields and
doc comments); the member-function bodies live in an `EditBox.cpp` that is
not part of the repository.  Every operation below is therefore a shallow
embedding reconstructed from the specification document and from the header
doc comments, as indicated by the `Modelled from the spec:` markers.

Strings (`tgui::String`, sequences of Unicode code points) are embedded as
`List Char`; pixel widths are abstracted to code-point counts (one unit
advance per glyph).  `std::wregex` is embedded as a small executable regex
engine (`Tgui.Regex`): an AST matched via Brzozowski derivatives, and a
compiler `compileRegex` from pattern strings that can fail, mirroring
`std::regex_error`.
-/

namespace Tgui

/-- Modelled from the spec: the compiled form of an input-validator pattern
(the header stores a `std::wregex` in `m_regex`).  Supports literals, `.`,
character classes with ranges and negation, concatenation, alternation and
repetition. -/
inductive Regex where
  | emptyset : Regex
  | epsilon : Regex
  | anychar : Regex
  | lit : Char → Regex
  | cls : Bool → List (Char × Char) → Regex
  | cat : Regex → Regex → Regex
  | alt : Regex → Regex → Regex
  | star : Regex → Regex
deriving DecidableEq, Repr

/-- Smart concatenation constructor, simplifying the unit and zero cases. -/
def mkCat : Regex → Regex → Regex
  | .emptyset, _ => .emptyset
  | _, .emptyset => .emptyset
  | .epsilon, b => b
  | a, .epsilon => a
  | a, b => .cat a b

/-- Smart alternation constructor, simplifying the zero cases. -/
def mkAlt : Regex → Regex → Regex
  | .emptyset, b => b
  | a, .emptyset => a
  | a, b => .alt a b

/-- Does a character fall in one of the ranges of a character class? -/
def clsMem (items : List (Char × Char)) (c : Char) : Bool :=
  items.any (fun p => decide (p.1 ≤ c) && decide (c ≤ p.2))

/-- Does the language of `r` contain the empty string? -/
def Regex.nullable : Regex → Bool
  | .emptyset => false
  | .epsilon => true
  | .anychar => false
  | .lit _ => false
  | .cls _ _ => false
  | .cat a b => a.nullable && b.nullable
  | .alt a b => a.nullable || b.nullable
  | .star _ => true

/-- Brzozowski derivative of `r` by the character `c`. -/
def Regex.deriv : Regex → Char → Regex
  | .emptyset, _ => .emptyset
  | .epsilon, _ => .emptyset
  | .anychar, _ => .epsilon
  | .lit d, c => if c = d then .epsilon else .emptyset
  | .cls neg items, c => if clsMem items c != neg then .epsilon else .emptyset
  | .cat a b, c =>
      if a.nullable then mkAlt (mkCat (a.deriv c) b) (b.deriv c)
      else mkCat (a.deriv c) b
  | .alt a b, c => mkAlt (a.deriv c) (b.deriv c)
  | .star a, c => mkCat (a.deriv c) (.star a)

/-- Whole-string matching, as used by `std::regex_match` in the widget:
the full buffer must be in the language of the pattern. -/
def Regex.rmatch (r : Regex) (l : List Char) : Bool :=
  (l.foldl Regex.deriv r).nullable

/-- Parse the items of a character class, after the opening bracket and
optional `^`.  Fails when the closing bracket is missing. -/
def parseClassItems : List Char → List (Char × Char) →
    Option (List (Char × Char) × List Char)
  | [], _ => none
  | ']' :: rest, acc => some (acc.reverse, rest)
  | '\\' :: c :: rest, acc => parseClassItems rest ((c, c) :: acc)
  | ['\\'], _ => none
  | c :: '-' :: d :: rest, acc =>
      if d = ']' then some ((('-', '-') :: (c, c) :: acc).reverse, rest)
      else parseClassItems rest ((c, d) :: acc)
  | c :: rest, acc => parseClassItems rest ((c, c) :: acc)

/-- Parse a character class after the opening `[`. -/
def parseClass : List Char → Option (Regex × List Char)
  | '^' :: rest =>
      match parseClassItems rest [] with
      | some (items, rest2) => some (.cls true items, rest2)
      | none => none
  | l =>
      match parseClassItems l [] with
      | some (items, rest2) => some (.cls false items, rest2)
      | none => none

/-- Characters that may not start an atom (they would make the pattern
ill-formed there, as in ECMAScript regexes). -/
def isMeta (c : Char) : Bool :=
  c == '*' || c == '+' || c == '?' || c == '|' || c == '(' || c == ')' ||
  c == '[' || c == ']' || c == '\\' || c == '.'

/-- Apply trailing repetition operators (`*`, `+`, `?`) to a parsed atom. -/
def applyReps (r : Regex) : List Char → Regex × List Char
  | '*' :: rest => applyReps (.star r) rest
  | '+' :: rest => applyReps (.cat r (.star r)) rest
  | '?' :: rest => applyReps (mkAlt r .epsilon) rest
  | l => (r, l)

mutual

/-- Parse an alternation (fuel-indexed recursive descent). -/
def pAlt : Nat → List Char → Option (Regex × List Char)
  | 0, _ => none
  | fuel + 1, l =>
      match pCat fuel l with
      | none => none
      | some (r, l1) =>
          match l1 with
          | '|' :: l2 =>
              match pAlt fuel l2 with
              | none => none
              | some (r2, l3) => some (mkAlt r r2, l3)
          | _ => some (r, l1)

/-- Parse a concatenation of repeated atoms. -/
def pCat : Nat → List Char → Option (Regex × List Char)
  | 0, _ => none
  | fuel + 1, l =>
      match l with
      | [] => some (.epsilon, [])
      | ')' :: _ => some (.epsilon, l)
      | '|' :: _ => some (.epsilon, l)
      | _ =>
          match pAtom fuel l with
          | none => none
          | some (r, l1) =>
              match applyReps r l1 with
              | (r1, l2) =>
                  match pCat fuel l2 with
                  | none => none
                  | some (r2, l3) => some (mkCat r1 r2, l3)

/-- Parse a single atom: group, class, wildcard, escape or literal. -/
def pAtom : Nat → List Char → Option (Regex × List Char)
  | 0, _ => none
  | fuel + 1, l =>
      match l with
      | [] => none
      | '(' :: l1 =>
          match pAlt fuel l1 with
          | none => none
          | some (r, l2) =>
              match l2 with
              | ')' :: l3 => some (r, l3)
              | _ => none
      | '[' :: l1 => parseClass l1
      | '.' :: l1 => some (.anychar, l1)
      | '\\' :: c :: l1 => some (.lit c, l1)
      | ['\\'] => none
      | c :: l1 => if isMeta c then none else some (.lit c, l1)

end

/-- Modelled from the spec: compiling a validator pattern, the counterpart of
constructing a `std::wregex`.  Returns `none` exactly where the constructor
would throw `std::regex_error` (the pattern is not a valid pattern of the
supported grammar). -/
def compileRegex (p : List Char) : Option Regex :=
  match pAlt (4 * p.length + 4) p with
  | none => none
  | some (r, []) => some r
  | some (_, _ :: _) => none

/-- The text alignment (header `enum class Alignment`). -/
inductive Alignment where
  | Left : Alignment
  | Center : Alignment
  | Right : Alignment
deriving DecidableEq, Repr

/-- The code point used when no password character is set (`'\0'`). -/
def nulChar : Char := Char.ofNat 0

/-- Modelled from the spec: `m_displayedText` is the same as `m_text` unless
a password character is set, in which case every code point is replaced by
that character. -/
def display (p : Char) (t : List Char) : List Char :=
  if p = nulChar then t else t.map (fun _ => p)

/-- The state of an `EditBox` widget: the member fields declared in the
header that take part in the text-editing behaviour.  Purely visual fields
(caret rectangle, sprites, cached colors, blink flag, crop position) and the
derived `m_selChars` count are omitted; `m_maxWidth` is modelled from the
spec: the available inner width in unit glyph advances, standing in for the
pixel width the real widget derives from its size, padding and font. -/
structure EditBox where
  m_limitTextWidth : Bool
  m_readOnly : Bool
  m_text : List Char
  m_displayedText : List Char
  m_regexString : List Char
  m_regex : Regex
  m_textAlignment : Alignment
  m_selStart : Nat
  m_selEnd : Nat
  m_passwordChar : Char
  m_maxChars : Nat
  m_maxWidth : Nat
  m_suffix : List Char
deriving DecidableEq, Repr

/-- The freshly constructed widget, with the default member initializers of
the header (`m_regexString = U".*"`, everything else empty / zero / false). -/
def EditBox.init : EditBox where
  m_limitTextWidth := false
  m_readOnly := false
  m_text := []
  m_displayedText := []
  m_regexString := ".*".toList
  m_regex := .star .anychar
  m_textAlignment := .Left
  m_selStart := 0
  m_selEnd := 0
  m_passwordChar := nulChar
  m_maxChars := 0
  m_maxWidth := 0
  m_suffix := []

/-- Insertion of a code point at an index of the buffer. -/
def insertAt (t : List Char) (i : Nat) (c : Char) : List Char :=
  t.take i ++ c :: t.drop i

/-- Modelled from the spec: the text stored by `setText` — truncated to
`MaxChars` when a limit is set, truncated to the available width when
width-limiting is enabled, and cleared entirely when the result does not
match the validator (header: "When the regex does not match when calling the
setText function then the edit box contents will be cleared"). -/
def processSetText (s : EditBox) (t : List Char) : List Char :=
  let t1 := if s.m_maxChars ≠ 0 then t.take s.m_maxChars else t
  let t2 := if s.m_limitTextWidth then t1.take s.m_maxWidth else t1
  if s.m_regex.rmatch t2 then t2 else []

/-- Modelled from the spec: `setText` replaces the buffer wholesale (subject
to `processSetText`), recomputes the display buffer and puts the caret at the
end (selection collapsed to `(length, length)`).  Works also when the widget
is read-only. -/
def setText (s : EditBox) (t : List Char) : EditBox :=
  let nt := processSetText s t
  { s with m_text := nt, m_displayedText := display s.m_passwordChar nt,
           m_selStart := nt.length, m_selEnd := nt.length }

/-- `getText`: the buffer, never affected by the password character. -/
def getText (s : EditBox) : List Char := s.m_text

/-- Modelled from the spec: `selectText(start, length)` with out-of-range
indices clamped to `[0, length(Buffer)]`, never rejected. -/
def selectText (s : EditBox) (start length : Nat) : EditBox :=
  { s with m_selStart := min start s.m_text.length,
           m_selEnd := min (start + length) s.m_text.length }

/-- The value of `String::npos` for a 64-bit `std::size_t`, the default
`length` argument of `selectText`. -/
def cppNpos : Nat := 2 ^ 64 - 1

/-- `getSelectedText`: the selected range of the buffer (selection endpoints
may be in either order); derived from `m_text`, not `m_displayedText`. -/
def getSelectedText (s : EditBox) : List Char :=
  (s.m_text.take (max s.m_selStart s.m_selEnd)).drop (min s.m_selStart s.m_selEnd)

/-- Modelled from the spec: remove the selected code points `[lo, hi)` from
the buffer; the caret moves to the lower bound of the removed range. -/
def deleteSelectedCharacters (s : EditBox) : EditBox :=
  let lo := min s.m_selStart s.m_selEnd
  let hi := max s.m_selStart s.m_selEnd
  let nt := s.m_text.take lo ++ s.m_text.drop hi
  { s with m_text := nt, m_displayedText := display s.m_passwordChar nt,
           m_selStart := lo, m_selEnd := lo }

/-- Modelled from the spec: the checked insertion at the heart of
`textEntered` (and of paste), run after the read-only check and the deletion
of a non-empty selection.  The character is rejected — silently, leaving the
state as it is at that point — when the character limit is reached, when the
tentatively extended buffer fails the validator, or when width-limiting is
on and the new text would not fit.  On success the character is inserted at
the caret and the caret advances by one. -/
def insertStep (c : Char) (s1 : EditBox) : EditBox :=
  if s1.m_maxChars ≠ 0 ∧ s1.m_text.length ≥ s1.m_maxChars then s1 else
  let nt := insertAt s1.m_text s1.m_selEnd c
  if ¬ s1.m_regex.rmatch nt then s1 else
  if s1.m_limitTextWidth ∧ nt.length > s1.m_maxWidth then s1 else
  { s1 with m_text := nt, m_displayedText := display s1.m_passwordChar nt,
            m_selStart := s1.m_selEnd + 1, m_selEnd := s1.m_selEnd + 1 }

/-- Modelled from the spec: `textEntered` — no-op when read-only, otherwise
a non-empty selection is deleted first and the character goes through the
checked insertion `insertStep`. -/
def textEntered (c : Char) (s : EditBox) : EditBox :=
  if s.m_readOnly then s else
  insertStep c (if s.m_selStart ≠ s.m_selEnd then deleteSelectedCharacters s else s)

/-- Modelled from the spec: the Backspace key.  No-op when read-only; deletes
the selection when there is one, otherwise the code point left of the caret;
the caret moves to the lower bound of the removed range. -/
def backspaceKeyPressed (s : EditBox) : EditBox :=
  if s.m_readOnly then s else
  if s.m_selStart ≠ s.m_selEnd then deleteSelectedCharacters s else
  if s.m_selEnd = 0 then s else
  let nt := s.m_text.take (s.m_selEnd - 1) ++ s.m_text.drop s.m_selEnd
  { s with m_text := nt, m_displayedText := display s.m_passwordChar nt,
           m_selStart := s.m_selEnd - 1, m_selEnd := s.m_selEnd - 1 }

/-- Modelled from the spec: the Delete key.  No-op when read-only; deletes
the selection when there is one, otherwise the code point at the caret. -/
def deleteKeyPressed (s : EditBox) : EditBox :=
  if s.m_readOnly then s else
  if s.m_selStart ≠ s.m_selEnd then deleteSelectedCharacters s else
  if s.m_text.length ≤ s.m_selEnd then s else
  let nt := s.m_text.take s.m_selEnd ++ s.m_text.drop (s.m_selEnd + 1)
  { s with m_text := nt, m_displayedText := display s.m_passwordChar nt }

/-- Modelled from the spec: `setInputValidator` compiles the pattern and
returns `false` with the state unchanged when compilation fails; on success
it stores pattern and compiled regex, clears the buffer entirely when the
current buffer does not match the new pattern, and returns `true`. -/
def setInputValidator (s : EditBox) (p : List Char) : Bool × EditBox :=
  match compileRegex p with
  | none => (false, s)
  | some r =>
      let s1 := { s with m_regexString := p, m_regex := r }
      if r.rmatch s.m_text then (true, s1)
      else (true, { s1 with m_text := [], m_displayedText := [],
                            m_selStart := 0, m_selEnd := 0 })

/-- `getInputValidator`: the stored pattern string. -/
def getInputValidator (s : EditBox) : List Char := s.m_regexString

/-- Modelled from the spec: `setMaximumCharacters` stores the new limit and,
when the current buffer is longer than a non-zero limit, truncates the buffer
and clamps the selection to the new length. -/
def setMaximumCharacters (s : EditBox) (n : Nat) : EditBox :=
  if n ≠ 0 ∧ n < s.m_text.length then
    let nt := s.m_text.take n
    { s with m_maxChars := n, m_text := nt,
             m_displayedText := display s.m_passwordChar nt,
             m_selStart := min s.m_selStart nt.length,
             m_selEnd := min s.m_selEnd nt.length }
  else { s with m_maxChars := n }

/-- `setPasswordCharacter` stores the mask character and recomputes the
display buffer (`Char.ofNat 0` meaning no masking). -/
def setPasswordCharacter (s : EditBox) (c : Char) : EditBox :=
  { s with m_passwordChar := c, m_displayedText := display c s.m_text }

/-- `setReadOnly`. -/
def setReadOnly (s : EditBox) (b : Bool) : EditBox := { s with m_readOnly := b }

/-- `setAlignment`. -/
def setAlignment (s : EditBox) (a : Alignment) : EditBox := { s with m_textAlignment := a }

/-- `setSuffix`. -/
def setSuffix (s : EditBox) (t : List Char) : EditBox := { s with m_suffix := t }

/-- Modelled from the spec: copy (Ctrl+C) places the selected text — derived
from the buffer, not the display buffer — on the clipboard.  The widget state
is not changed; the function returns the new clipboard contents. -/
def copySelectedTextToClipboard (s : EditBox) : List Char :=
  getSelectedText s

/-- Modelled from the spec: cut (Ctrl+X) copies the selected text to the
clipboard and additionally deletes the selection unless the widget is
read-only. -/
def cutSelectedTextToClipboard (s : EditBox) : EditBox × List Char :=
  (if s.m_readOnly then s else deleteSelectedCharacters s, getSelectedText s)

/-- Modelled from the spec: paste (Ctrl+V) inserts the clipboard text code
point by code point through the same validation/limit pipeline as typed
insertion, each rejected character silently dropped; no-op when read-only. -/
def pasteTextFromClipboard (s : EditBox) (clip : List Char) : EditBox :=
  if s.m_readOnly then s else clip.foldl (fun st c => textEntered c st) s

/-- Whitespace test for word-boundary navigation (codepoint classes are
whitespace vs. non-whitespace). -/
def isWsp (c : Char) : Bool :=
  c == ' ' || c == '\t' || c == '\n' || c == '\r'

/-- Length of the leading run of characters satisfying `p`. -/
def runLen (p : Char → Bool) : List Char → Nat
  | [] => 0
  | c :: cs => if p c then runLen p cs + 1 else 0

/-- Modelled from the spec: the caret position reached by Ctrl+Right from
index `i` — skip the current whitespace run (if any), then skip the
following run of non-whitespace, stopping at the end of that word (the next
codepoint-class transition) or at the end of the buffer. -/
def wordEnd (t : List Char) (i : Nat) : Nat :=
  let rest := t.drop i
  let k := runLen isWsp rest
  i + k + runLen (fun c => ! isWsp c) (rest.drop k)

/-- Modelled from the spec: the caret position reached by Ctrl+Left from
index `i` — mirror image of `wordEnd` on the reversed prefix. -/
def wordBegin (t : List Char) (i : Nat) : Nat :=
  let rest := (t.take i).reverse
  let k := runLen isWsp rest
  i - k - runLen (fun c => ! isWsp c) (rest.drop k)

/-- Modelled from the spec: Ctrl+Right moves the caret to the end of the
current/next word and collapses the selection there. -/
def moveCaretWordEnd (s : EditBox) : EditBox :=
  let j := wordEnd s.m_text s.m_selEnd
  { s with m_selStart := j, m_selEnd := j }

/-- Modelled from the spec: Ctrl+Left moves the caret to the begin of the
current/previous word and collapses the selection there. -/
def moveCaretWordBegin (s : EditBox) : EditBox :=
  let j := wordBegin s.m_text s.m_selEnd
  { s with m_selStart := j, m_selEnd := j }

/-- Decimal digit character for a digit value below ten. -/
def digitChar (d : Nat) : Char := Char.ofNat (48 + d)

/-- Digit value of a decimal digit character. -/
def digitVal (c : Char) : Nat := c.toNat - 48

/-- Modelled from the spec: serialization of a number to a property-value
string (decimal digits, least significant first). -/
def encodeNat (n : Nat) : List Char := (Nat.digits 10 n).map digitChar

/-- Modelled from the spec: deserialization of a number property value. -/
def decodeNat (l : List Char) : Nat := Nat.ofDigits 10 (l.map digitVal)

/-- Serialization of the alignment enumerator to its name. -/
def encodeAlignment : Alignment → List Char
  | .Left => "Left".toList
  | .Center => "Center".toList
  | .Right => "Right".toList

/-- Deserialization of an alignment name, defaulting to `Left`. -/
def decodeAlignment (l : List Char) : Alignment :=
  if l = "Center".toList then .Center
  else if l = "Right".toList then .Right
  else .Left

/-- Serialization of a boolean property value. -/
def encodeBool : Bool → List Char
  | true => "true".toList
  | false => "false".toList

/-- Deserialization of a boolean property value. -/
def decodeBool (l : List Char) : Bool := l = "true".toList

/-- Serialization of a single character property value. -/
def encodeChar (c : Char) : List Char := [c]

/-- Deserialization of a single character property value. -/
def decodeChar : List Char → Char
  | [c] => c
  | _ => nulChar

/-- Modelled from the spec: the generic attributed tree node that widgets
are saved to — a property bag of name → value strings. -/
def SaveNode : Type := List (List Char × List Char)

/-- Look a property up in a tree node by name. -/
def lookupProp (key : List Char) : SaveNode → Option (List Char)
  | [] => none
  | (k, v) :: rest => if k = key then some v else lookupProp key rest

/-- Modelled from the spec: `save` writes every persisted `EditBox` property
of this model into a tree node. -/
def EditBox.save (s : EditBox) : SaveNode :=
  [("Text".toList, s.m_text),
   ("Alignment".toList, encodeAlignment s.m_textAlignment),
   ("MaximumCharacters".toList, encodeNat s.m_maxChars),
   ("ReadOnly".toList, encodeBool s.m_readOnly),
   ("Suffix".toList, s.m_suffix),
   ("PasswordCharacter".toList, encodeChar s.m_passwordChar)]

/-- Modelled from the spec: `load` builds a widget from a tree node, falling
back to the freshly-constructed defaults for every absent property, and
recomputes the display buffer from the loaded text and password character. -/
def EditBox.load (node : SaveNode) : EditBox :=
  let txt := (lookupProp ("Text".toList) node).getD []
  let pc :=
    match lookupProp ("PasswordCharacter".toList) node with
    | some v => decodeChar v
    | none => nulChar
  { EditBox.init with
    m_text := txt
    m_displayedText := display pc txt
    m_passwordChar := pc
    m_textAlignment :=
      match lookupProp ("Alignment".toList) node with
      | some v => decodeAlignment v
      | none => .Left
    m_maxChars :=
      match lookupProp ("MaximumCharacters".toList) node with
      | some v => decodeNat v
      | none => 0
    m_readOnly :=
      match lookupProp ("ReadOnly".toList) node with
      | some v => decodeBool v
      | none => false
    m_suffix := (lookupProp ("Suffix".toList) node).getD [] }

/-- A user editing operation on the buffer: typed-character insertion, or
deletion via the Backspace or Delete keys. -/
inductive EditOp where
  | ins : Char → EditOp
  | back : EditOp
  | del : EditOp
deriving DecidableEq, Repr

/-- Apply one editing operation. -/
def applyOp (s : EditBox) : EditOp → EditBox
  | .ins c => textEntered c s
  | .back => backspaceKeyPressed s
  | .del => deleteKeyPressed s

/-- Apply a sequence of editing operations in order. -/
def applyOps (s : EditBox) (ops : List EditOp) : EditBox :=
  ops.foldl applyOp s

/-- The selection-bounds invariant: both selection endpoints lie inside
`[0, length(Buffer)]`. -/
def selWf (s : EditBox) : Prop :=
  s.m_selStart ≤ s.m_text.length ∧ s.m_selEnd ≤ s.m_text.length

instance (s : EditBox) : Decidable (selWf s) := by
  unfold selWf; infer_instance

/-- The compiled form of the digits-only pattern `[0-9]*`. -/
def validator09 : Regex := .star (.cls false [('0', '9')])

/-- A digits-only edit box holding `"12"` with the whole buffer selected. -/
def c2SelState : EditBox :=
  { EditBox.init with
    m_text := "12".toList
    m_displayedText := "12".toList
    m_regexString := "[0-9]*".toList
    m_regex := validator09
    m_selStart := 0
    m_selEnd := 2 }

/-- A digits-only edit box holding `"12"` with the caret at the end and an
empty selection. -/
def c2CaretState : EditBox :=
  { EditBox.init with
    m_text := "12".toList
    m_displayedText := "12".toList
    m_regexString := "[0-9]*".toList
    m_regex := validator09
    m_selStart := 2
    m_selEnd := 2 }

/-- A read-only edit box holding `"hi"`. -/
def roState : EditBox :=
  { EditBox.init with
    m_readOnly := true
    m_text := "hi".toList
    m_displayedText := "hi".toList
    m_selStart := 2
    m_selEnd := 2 }

/-- An edit box holding `"abc"` under the default validator. -/
def abcState : EditBox :=
  { EditBox.init with
    m_text := "abc".toList
    m_displayedText := "abc".toList
    m_selStart := 3
    m_selEnd := 3 }

/-- An edit box holding `"foo bar"` with the caret (and collapsed selection)
at position `i`. -/
def fooBarCaret (i : Nat) : EditBox :=
  { EditBox.init with
    m_text := "foo bar".toList
    m_displayedText := "foo bar".toList
    m_selStart := i
    m_selEnd := i }

/-! ### Helper lemmas -/

/-- The compiled form of the default validator is indeed `.*`. -/
theorem compileRegex_default : compileRegex (".*".toList) = some (.star .anychar) := rfl

/-- The compiled form of the digits-only validator `[0-9]*`. -/
theorem compileRegex_digits :
    compileRegex ("[0-9]*".toList) = some (.star (.cls false [('0', '9')])) := rfl

/-- The default validator `.*` accepts every buffer. -/
theorem rmatch_star_anychar : ∀ l : List Char, Regex.rmatch (.star .anychar) l = true
  | [] => rfl
  | _ :: cs => rmatch_star_anychar cs

theorem selWf_deleteSelectedCharacters (s : EditBox) (h : selWf s) :
    selWf (deleteSelectedCharacters s) := by
  obtain ⟨h1, h2⟩ := h
  simp only [deleteSelectedCharacters, selWf, List.length_append, List.length_take,
    List.length_drop]
  omega

theorem selWf_insertStep (c : Char) (s : EditBox) (h : selWf s) :
    selWf (insertStep c s) := by
  obtain ⟨h1, h2⟩ := h
  unfold insertStep
  dsimp only
  split
  · exact ⟨h1, h2⟩
  · split
    · exact ⟨h1, h2⟩
    · split
      · exact ⟨h1, h2⟩
      · simp only [selWf, insertAt, List.length_append, List.length_take,
          List.length_drop, List.length_cons]
        omega

theorem selWf_textEntered (c : Char) (s : EditBox) (h : selWf s) :
    selWf (textEntered c s) := by
  unfold textEntered
  split
  · exact h
  · apply selWf_insertStep
    split
    · exact selWf_deleteSelectedCharacters s h
    · exact h

theorem selWf_backspaceKeyPressed (s : EditBox) (h : selWf s) :
    selWf (backspaceKeyPressed s) := by
  obtain ⟨h1, h2⟩ := h
  unfold backspaceKeyPressed
  split
  · exact ⟨h1, h2⟩
  · split
    · exact selWf_deleteSelectedCharacters s ⟨h1, h2⟩
    · split
      · exact ⟨h1, h2⟩
      · simp only [selWf, List.length_append, List.length_take, List.length_drop]
        omega

theorem selWf_deleteKeyPressed (s : EditBox) (h : selWf s) :
    selWf (deleteKeyPressed s) := by
  obtain ⟨h1, h2⟩ := h
  unfold deleteKeyPressed
  split
  · exact ⟨h1, h2⟩
  · split
    · exact selWf_deleteSelectedCharacters s ⟨h1, h2⟩
    · split
      · exact ⟨h1, h2⟩
      · simp only [selWf, List.length_append, List.length_take, List.length_drop]
        omega

theorem selWf_applyOp (s : EditBox) (op : EditOp) (h : selWf s) :
    selWf (applyOp s op) := by
  cases op with
  | ins c => exact selWf_textEntered c s h
  | back => exact selWf_backspaceKeyPressed s h
  | del => exact selWf_deleteKeyPressed s h

theorem runLen_le (p : Char → Bool) : ∀ l : List Char, runLen p l ≤ l.length
  | [] => Nat.le_refl 0
  | c :: cs => by
      unfold runLen
      split
      · exact Nat.succ_le_succ (runLen_le p cs)
      · exact Nat.zero_le _

theorem runLen_run (p : Char → Bool) :
    ∀ (l : List Char) (j : Nat) (d : Char), j < runLen p l → p (l.getD j d) = true
  | [], j, d, hj => absurd hj (by simp [runLen])
  | c :: cs, j, d, hj => by
      unfold runLen at hj
      by_cases hc : p c = true
      · rw [if_pos hc] at hj
        cases j with
        | zero => exact hc
        | succ j => exact runLen_run p cs j d (Nat.lt_of_succ_lt_succ hj)
      · rw [if_neg hc] at hj
        exact absurd hj (Nat.not_lt_zero j)

theorem runLen_stop (p : Char → Bool) :
    ∀ (l : List Char) (d : Char), runLen p l < l.length →
      p (l.getD (runLen p l) d) = false
  | [], d, h => absurd h (by simp [runLen])
  | c :: cs, d, h => by
      unfold runLen at h ⊢
      by_cases hc : p c = true
      · rw [if_pos hc] at h ⊢
        exact runLen_stop p cs d (Nat.lt_of_succ_lt_succ h)
      · rw [if_neg hc] at h ⊢
        simpa using hc

theorem runLen_pos (p : Char → Bool) (l : List Char) (d : Char)
    (hne : l ≠ []) (h : p (l.getD 0 d) = true) : 1 ≤ runLen p l := by
  cases l with
  | nil => exact absurd rfl hne
  | cons c cs =>
      unfold runLen
      simp only [List.getD_cons_zero] at h
      rw [if_pos h]
      exact Nat.succ_le_succ (Nat.zero_le _)

theorem getD_drop (t : List Char) :
    ∀ (n j : Nat) (d : Char), (t.drop n).getD j d = t.getD (n + j) d := by
  induction t with
  | nil => intro n j d; simp
  | cons c cs ih =>
      intro n j d
      cases n with
      | zero => simp [Nat.zero_add]
      | succ n =>
          show (cs.drop n).getD j d = (c :: cs).getD (n + 1 + j) d
          rw [ih n j d]
          have : n + 1 + j = (n + j) + 1 := by omega
          rw [this]
          rfl

/-- Value and character codecs used by the tree-node serialization are
mutually inverse. -/
theorem digitVal_digitChar {d : Nat} (h : d < 10) : digitVal (digitChar d) = d := by
  interval_cases d <;> rfl

theorem decodeNat_encodeNat (n : Nat) : decodeNat (encodeNat n) = n := by
  unfold decodeNat encodeNat
  rw [List.map_map]
  rw [List.map_congr_left (g := id) ?h, List.map_id]
  · exact Nat.ofDigits_digits 10 n
  · intro x hx
    exact digitVal_digitChar (Nat.digits_lt_base (by norm_num) hx)

theorem decodeAlignment_encodeAlignment (a : Alignment) :
    decodeAlignment (encodeAlignment a) = a := by
  cases a <;> rfl

theorem decodeBool_encodeBool (b : Bool) : decodeBool (encodeBool b) = b := by
  cases b <;> rfl

theorem decodeChar_encodeChar (c : Char) : decodeChar (encodeChar c) = c := rfl

/-- `wordEnd` lands inside the buffer, and — when it does not land at the
very end — it lands exactly at a codepoint-class transition: on a whitespace
character that ends a non-empty run of non-whitespace characters (the end of
the current/next word). -/
theorem wordEnd_spec (t : List Char) (i : Nat) (d : Char) (hi : i ≤ t.length) :
    (i ≤ wordEnd t i ∧ wordEnd t i ≤ t.length) ∧
    (wordEnd t i < t.length →
      isWsp (t.getD (wordEnd t i) d) = true ∧ i < wordEnd t i ∧
      isWsp (t.getD (wordEnd t i - 1) d) = false) := by
  set r := t.drop i with hrdef
  set k := runLen isWsp r with hkdef
  set m := runLen (fun c => ! isWsp c) (r.drop k) with hmdef
  have hwe : wordEnd t i = i + k + m := rfl
  have hr : r.length = t.length - i := by rw [hrdef]; exact List.length_drop i t
  have hk : k ≤ r.length := hkdef ▸ runLen_le _ r
  have hdk : (r.drop k).length = r.length - k := List.length_drop _ _
  have hm : m ≤ r.length - k := by rw [hmdef, ← hdk]; exact runLen_le _ _
  refine ⟨⟨by omega, by omega⟩, ?_⟩
  intro hlt
  have hmlt : m < (r.drop k).length := by omega
  have h1 : (fun c => ! isWsp c) ((r.drop k).getD m d) = false := by
    rw [hmdef]; exact runLen_stop _ _ d (hmdef ▸ hmlt)
  have e1 : (r.drop k).getD m d = t.getD (i + k + m) d := by
    rw [getD_drop, hrdef, getD_drop]
    congr 1
    omega
  have hm1 : 1 ≤ m := by
    by_contra hc
    have hm0 : m = 0 := by omega
    have hklt : k < r.length := by omega
    have h2 : isWsp (r.getD k d) = false := by
      rw [hkdef]; exact runLen_stop _ _ d (hkdef ▸ hklt)
    have hne : r.drop k ≠ [] := by
      intro he
      rw [he] at hdk
      simp at hdk
      omega
    have h3 : (fun c => ! isWsp c) ((r.drop k).getD 0 d) = true := by
      rw [getD_drop]
      simp only [Nat.add_zero, h2, Bool.not_false]
    have := runLen_pos (fun c => ! isWsp c) (r.drop k) d hne h3
    omega
  refine ⟨?_, by omega, ?_⟩
  · rw [hwe, ← e1]
    simpa using h1
  · have hm2 : m - 1 < m := by omega
    have h4 : (fun c => ! isWsp c) ((r.drop k).getD (m - 1) d) = true := by
      rw [hmdef]; exact runLen_run _ _ _ d (hmdef ▸ hm2)
    have e2 : (r.drop k).getD (m - 1) d = t.getD (i + k + (m - 1)) d := by
      rw [getD_drop, hrdef, getD_drop]
      congr 1
      omega
    have e3 : wordEnd t i - 1 = i + k + (m - 1) := by rw [hwe]; omega
    rw [e3, ← e2]
    simpa using h4

/-! ### Claim theorems -/

/-- C1: After every operation in any sequence of insert (typed character) and
delete (Backspace / Delete key) operations on the edit box, the selection
endpoints satisfy `0 ≤ selStart ≤ length(Buffer)` and
`0 ≤ selEnd ≤ length(Buffer)`.  Starting from any state satisfying the bound
— in particular the freshly constructed widget — every such sequence keeps
it, and since every prefix of a sequence is again a sequence, the bound holds
after every intermediate operation, i.e. on every exit path of every mutating
operation. -/
theorem editbox_sel_invariant (ops : List EditOp) (s : EditBox) (h : selWf s) :
    selWf (applyOps s ops) := by
  induction ops generalizing s with
  | nil => exact h
  | cons op rest ih => exact ih (applyOp s op) (selWf_applyOp s op h)

theorem editbox_sel_invariant_witness :
    selWf (applyOps EditBox.init [.ins '1', .ins '2', .back, .ins '3', .del]) :=
  editbox_sel_invariant [.ins '1', .ins '2', .back, .ins '3', .del] EditBox.init (by decide)

/-- C2 (counterexample): the claim fails for buffer states with a non-empty
selection.  With the buffer `"12"` entirely selected under validator
`[0-9]*`, typing `'a'` would make the full resulting buffer fail the
validator and the character is indeed rejected, but the buffer is not left
exactly unchanged: the selected range has already been deleted, leaving `""`
instead of `"12"`. -/
theorem editbox_reject_cex :
    Regex.rmatch c2SelState.m_regex
        (insertAt c2SelState.m_text c2SelState.m_selEnd 'a') = false ∧
    c2SelState.m_text = "12".toList ∧
    (textEntered 'a' c2SelState).m_text = [] := by decide

/-- C2 (amended): for every buffer state whose selection is empty and every
typed character, if inserting the character at the caret would make the full
resulting buffer fail the validator pattern, or exceed the character or
width limit, then the character is rejected and the edit-box state is left
exactly unchanged (no clearing, no signal, no exception); with a non-empty
selection the same holds only up to the prior deletion of the selected
range. -/
theorem editbox_reject_unchanged (s : EditBox) (c : Char)
    (hsel : s.m_selStart = s.m_selEnd)
    (hrej : (s.m_maxChars ≠ 0 ∧ s.m_text.length ≥ s.m_maxChars) ∨
            Regex.rmatch s.m_regex (insertAt s.m_text s.m_selEnd c) = false ∨
            (s.m_limitTextWidth = true ∧
              (insertAt s.m_text s.m_selEnd c).length > s.m_maxWidth)) :
    textEntered c s = s := by
  unfold textEntered
  split
  · rfl
  · rw [if_neg (by simp [hsel])]
    unfold insertStep
    dsimp only
    split
    · rfl
    · split
      · rfl
      · split
        · rfl
        · exfalso
          rename_i h1 h2 h3
          rcases hrej with h | h | h
          · exact h1 h
          · rw [h] at h2
            simp at h2
          · exact h3 h

theorem editbox_reject_unchanged_witness :
    textEntered 'a' c2CaretState = c2CaretState :=
  editbox_reject_unchanged c2CaretState 'a' (by decide) (by decide)

/-- C3: for every valid validator pattern `p`, calling `setInputValidator p`
when the current buffer does not match `p` clears the buffer to the empty
string. -/
theorem editbox_validator_clears (s : EditBox) (p : List Char) (r : Regex)
    (hc : compileRegex p = some r) (hm : Regex.rmatch r s.m_text = false) :
    ((setInputValidator s p).2).m_text = [] := by
  unfold setInputValidator
  rw [hc]
  dsimp only
  rw [if_neg (by simp [hm])]

theorem editbox_validator_clears_witness :
    ((setInputValidator abcState ("[0-9]*".toList)).2).m_text = [] :=
  editbox_validator_clears abcState ("[0-9]*".toList) validator09 (by rfl) (by decide)

/-- C4: for every string `p` that is not a valid regular expression,
`setInputValidator p` returns `false` and leaves the whole edit-box state
(buffer, selection, stored pattern, compiled pattern) unchanged; for every
valid pattern it returns `true`. -/
theorem editbox_validator_result (s : EditBox) (p : List Char) :
    (compileRegex p = none → setInputValidator s p = (false, s)) ∧
    (∀ r : Regex, compileRegex p = some r → (setInputValidator s p).1 = true) := by
  constructor
  · intro h
    unfold setInputValidator
    rw [h]
  · intro r h
    unfold setInputValidator
    rw [h]
    dsimp only
    split <;> rfl

theorem editbox_validator_result_witness :
    setInputValidator EditBox.init ("[".toList) = (false, EditBox.init) ∧
    (setInputValidator EditBox.init ("[0-9]*".toList)).1 = true :=
  ⟨(editbox_validator_result EditBox.init ("[".toList)).1 (by rfl),
   (editbox_validator_result EditBox.init ("[0-9]*".toList)).2 validator09 (by rfl)⟩

/-- C5: for every text `t` and every non-zero character limit `n` set via
`setMaximumCharacters n` on a fresh widget, `setText t` stores exactly the
first `n` code points of `t` when `length t > n`. -/
theorem editbox_settext_truncates (t : List Char) (n : Nat)
    (hn : n ≠ 0) (_hl : n < t.length) :
    (setText (setMaximumCharacters EditBox.init n) t).m_text = t.take n := by
  have h1 : setMaximumCharacters EditBox.init n = { EditBox.init with m_maxChars := n } := by
    unfold setMaximumCharacters
    rw [if_neg]
    simp [EditBox.init]
  rw [h1]
  simp [setText, processSetText, EditBox.init, hn, rmatch_star_anychar]

theorem editbox_settext_truncates_witness :
    (setText (setMaximumCharacters EditBox.init 3) ("12345".toList)).m_text = "123".toList :=
  editbox_settext_truncates ("12345".toList) 3 (by decide) (by decide)

/-- C6: `getSelectedText` (and the text placed on the clipboard by copy) is
derived from the real buffer, never from the masked display buffer: for
every buffer `t` and every password character `p ≠ '\0'`, after selecting
the whole text, `getSelectedText` returns `t` unmasked while the rendered
display buffer consists of `length t` copies of `p`. -/
theorem editbox_selected_unmasked (t : List Char) (p : Char) (hp : p ≠ nulChar) :
    getSelectedText (selectText (setText (setPasswordCharacter EditBox.init p) t) 0 t.length) = t ∧
    (selectText (setText (setPasswordCharacter EditBox.init p) t) 0 t.length).m_displayedText
      = t.map (fun _ => p) ∧
    copySelectedTextToClipboard
      (selectText (setText (setPasswordCharacter EditBox.init p) t) 0 t.length) = t := by
  have hset : setText (setPasswordCharacter EditBox.init p) t =
      { EditBox.init with
        m_passwordChar := p
        m_text := t
        m_displayedText := t.map (fun _ => p)
        m_selStart := t.length
        m_selEnd := t.length } := by
    simp [setText, setPasswordCharacter, processSetText, display, EditBox.init,
      rmatch_star_anychar, hp]
  rw [hset]
  simp [selectText, getSelectedText, copySelectedTextToClipboard, List.take_length]

theorem editbox_selected_unmasked_witness :
    getSelectedText
      (selectText (setText (setPasswordCharacter EditBox.init '*') ("secret".toList)) 0 6)
      = "secret".toList :=
  (editbox_selected_unmasked ("secret".toList) '*' (by decide)).1

/-- C7: when `ReadOnly` is true, no user-input operation (typed character,
backspace, delete, cut, paste) changes the edit-box state, while the
programmatic `setText` operation still stores the processed text exactly as
it would otherwise; selecting text and copying also still work in read-only
mode. -/
theorem editbox_readonly_behaviour (s : EditBox) (h : s.m_readOnly = true) :
    (∀ c, textEntered c s = s) ∧
    backspaceKeyPressed s = s ∧
    deleteKeyPressed s = s ∧
    (cutSelectedTextToClipboard s).1 = s ∧
    (∀ clip, pasteTextFromClipboard s clip = s) ∧
    (∀ t, (setText s t).m_text = processSetText s t) ∧
    (∀ a b, (selectText s a b).m_selStart = min a s.m_text.length ∧
            (selectText s a b).m_selEnd = min (a + b) s.m_text.length) ∧
    copySelectedTextToClipboard s = getSelectedText s := by
  refine ⟨?_, ?_, ?_, ?_, ?_, ?_, ?_, ?_⟩ <;>
    simp [textEntered, backspaceKeyPressed, deleteKeyPressed,
      cutSelectedTextToClipboard, pasteTextFromClipboard, setText, selectText,
      copySelectedTextToClipboard, h]

theorem editbox_readonly_behaviour_witness :
    textEntered 'x' roState = roState ∧ backspaceKeyPressed roState = roState :=
  ⟨(editbox_readonly_behaviour roState rfl).1 'x',
   (editbox_readonly_behaviour roState rfl).2.1⟩

/-- C8: word-granularity caret movement to the right stops at the end of the
current/next word — a codepoint-class transition: in the buffer `"foo bar"`
it moves the caret from position 0 to position 3 and from position 3 to
position 7; in general the landing position `wordEnd t i` stays within the
buffer and, unless it is the end of the buffer, it sits exactly on a
whitespace code point immediately preceded by a non-whitespace one. -/
theorem editbox_word_caret (t : List Char) (i : Nat) (hi : i ≤ t.length) :
    ((moveCaretWordEnd (fooBarCaret 0)).m_selEnd = 3 ∧
     (moveCaretWordEnd (fooBarCaret 3)).m_selEnd = 7) ∧
    (i ≤ wordEnd t i ∧ wordEnd t i ≤ t.length) ∧
    (wordEnd t i < t.length →
      isWsp (t.getD (wordEnd t i) ' ') = true ∧ i < wordEnd t i ∧
      isWsp (t.getD (wordEnd t i - 1) ' ') = false) :=
  ⟨by decide, (wordEnd_spec t i ' ' hi).1, (wordEnd_spec t i ' ' hi).2⟩

theorem editbox_word_caret_witness :
    wordEnd ("foo bar".toList) 0 ≤ ("foo bar".toList).length :=
  (editbox_word_caret ("foo bar".toList) 0 (by decide)).2.1.2

/-- C9: saving the widget to a tree node and loading that node into a
freshly constructed widget reproduces identical Text, Alignment, MaxChars,
ReadOnly, Suffix and PasswordCharacter values, for every edit-box state. -/
theorem editbox_save_load_roundtrip (s : EditBox) :
    (EditBox.load (EditBox.save s)).m_text = s.m_text ∧
    (EditBox.load (EditBox.save s)).m_textAlignment = s.m_textAlignment ∧
    (EditBox.load (EditBox.save s)).m_maxChars = s.m_maxChars ∧
    (EditBox.load (EditBox.save s)).m_readOnly = s.m_readOnly ∧
    (EditBox.load (EditBox.save s)).m_suffix = s.m_suffix ∧
    (EditBox.load (EditBox.save s)).m_passwordChar = s.m_passwordChar := by
  have hT : lookupProp ("Text".toList) (EditBox.save s) = some s.m_text := rfl
  have hA : lookupProp ("Alignment".toList) (EditBox.save s)
      = some (encodeAlignment s.m_textAlignment) := rfl
  have hM : lookupProp ("MaximumCharacters".toList) (EditBox.save s)
      = some (encodeNat s.m_maxChars) := rfl
  have hR : lookupProp ("ReadOnly".toList) (EditBox.save s)
      = some (encodeBool s.m_readOnly) := rfl
  have hS : lookupProp ("Suffix".toList) (EditBox.save s) = some s.m_suffix := rfl
  have hP : lookupProp ("PasswordCharacter".toList) (EditBox.save s)
      = some (encodeChar s.m_passwordChar) := rfl
  unfold EditBox.load
  rw [hT, hA, hM, hR, hS, hP]
  dsimp only
  exact ⟨rfl, decodeAlignment_encodeAlignment _, decodeNat_encodeNat _,
    decodeBool_encodeBool _, rfl, decodeChar_encodeChar _⟩

/-- C10: calling `selectText` with its default arguments
(`start = 0`, `length = String::npos`) selects the entire buffer:
afterwards `getSelectedText` returns the full text, for every buffer whose
length fits in a 64-bit `std::size_t`. -/
theorem editbox_select_all_default (s : EditBox) (h : s.m_text.length ≤ cppNpos) :
    getSelectedText (selectText s 0 cppNpos) = s.m_text := by
  unfold selectText getSelectedText
  dsimp only
  have h0 : min 0 s.m_text.length = 0 := by omega
  have h1 : min (0 + cppNpos) s.m_text.length = s.m_text.length := by omega
  rw [h0, h1]
  simp [List.take_length]

theorem editbox_select_all_default_witness :
    getSelectedText (selectText abcState 0 cppNpos) = "abc".toList :=
  editbox_select_all_default abcState (by decide)

end Tgui
